import Mathlib

/-!
The rock_trucks simulation: factories, a warehouse queue and trucks

A verification development for `src/main.cpp`.

* `Factory::produce` pushes one lot `(product.name, static_cast<int>(productionRate))`
  onto the shared warehouse queue per cycle.
* `Truck::transport` waits on the condition variable, runs the loading loop of
  lines 68-79 on the queue, sleeps, and appends what it loaded to the statistics.
* `main` sets the stop flag, broadcasts, joins, and prints the totals and the
  "average units per trip".

Integers.  The quantities are C++ `int`, 32 bits wide.  The loading loop is given in
two arithmetics.

* `loopBody32`, `transportLoop32`, `drain32` and the system `System.step32`,
  `System.run32` compute lines 70, 71 and 77 as the compiled program does: a result
  outside the range of `int` is reduced into it (`wrapInt`).  Signed overflow is
  undefined behaviour in C++; the reduction is what the program does on a
  two's-complement machine.
* `loopBody`, `transportLoop`, `drain` and the system `System.step`, `System.run`
  compute in exact integers.
* `transportLoopChecked`, `drainChecked` test every intermediate value against the
  range of `int`.  Where they return a result no operation overflows and both
  arithmetics return that result (`drainChecked_some`); where `drainChecked` returns
  none, some iteration overflows (`drainChecked_none`); they return a result on every
  queue of non-negative representable quantities (`drainChecked_returns`).

Properties that the specification states for every queue are proved for the 32-bit
arithmetic, for the drains without overflow.  Properties whose hypotheses keep the
quantities positive are stated in exact integers, which is then the 32-bit arithmetic
(`drain32_eq_drain`, `run32_eq_run`).  The cast of line 37 (`staticCastInt`) is the
conversion of the compiled program in both systems.
-/

namespace RockTrucks

/-! ## Data model -/

/-- An element of `std::queue<std::pair<std::string, int>>` (and of the statistics
vector): product name and a number of units. -/
abbrev Lot := String × Int

/-- Sum of the `second` components of a sequence of pairs. -/
def sumQty (l : List Lot) : Int := (l.map Prod.snd).sum

/-- The variables of the loading loop of `Truck::transport` (lines 65-79): the shared
queue `warehouse`, and the locals `totalLoaded` and `loadedProducts`. -/
structure LoadState where
  warehouse : List Lot
  totalLoaded : Int
  loadedProducts : List Lot
deriving DecidableEq, Repr

/-- The state at line 67, before the loop: `totalLoaded = 0`, `loadedProducts` empty. -/
def LoadState.start (warehouse : List Lot) : LoadState :=
  { warehouse := warehouse, totalLoaded := 0, loadedProducts := [] }

/-- One execution of the loop body, lines 69-78, with `front :: rest` the queue:
`toLoad = std::min(capacity - totalLoaded, front.second)`, the total and the record
list grow, and the front lot is popped when `toLoad == front.second`, reduced in place
otherwise.  The arithmetic is exact: this is the body of every execution in which lines
70, 71 and 77 do not overflow (`loopBody32_eq_loopBody`); `loopBody32` is the body in
32-bit arithmetic. -/
def loopBody (capacity : Int) (front : Lot) (rest : List Lot) (s : LoadState) : LoadState :=
  let toLoad := min (capacity - s.totalLoaded) front.2
  { warehouse := if toLoad = front.2 then rest else (front.1, front.2 - toLoad) :: rest
    totalLoaded := s.totalLoaded + toLoad
    loadedProducts := s.loadedProducts ++ [(front.1, toLoad)] }

/-- The loop `while (!warehouse.empty() && totalLoaded < capacity) { ... }` of lines
68-79.  `fuel` bounds the number of evaluations of the loop condition; `none` means
the bound was reached before the condition became false. -/
def transportLoop (capacity : Int) : Nat → LoadState → Option LoadState
  | 0, _ => none
  | fuel + 1, s =>
    match s.warehouse with
    | [] => some s
    | front :: rest =>
      if s.totalLoaded < capacity then
        transportLoop capacity fuel (loopBody capacity front rest s)
      else some s

/-- Lines 65-79 as a whole: the loop started from `totalLoaded = 0` and no records.
The loop condition is evaluated at most `warehouse.size() + 1` times
(`drain_returns`). -/
def drain (capacity : Int) (warehouse : List Lot) : Option LoadState :=
  transportLoop capacity (warehouse.length + 1) (LoadState.start warehouse)

/-- Every lot of the queue has a strictly positive quantity. -/
def AllPositive (l : List Lot) : Prop := ∀ x ∈ l, 0 < x.2

instance (l : List Lot) : Decidable (AllPositive l) :=
  inferInstanceAs (Decidable (∀ x ∈ l, 0 < x.2))

/-- Largest value of a 32-bit `int`. -/
def INT_MAX : Int := 2147483647

/-- Smallest value of a 32-bit `int`. -/
def INT_MIN : Int := -2147483648

/-- The value is representable as a 32-bit `int`. -/
def InIntRange (x : Int) : Prop := INT_MIN ≤ x ∧ x ≤ INT_MAX

instance (x : Int) : Decidable (InIntRange x) :=
  inferInstanceAs (Decidable (_ ∧ _))

/-- The values computed by one execution of the loop body (lines 70, 71 and 77) are
all representable as `int`. -/
def BodyInIntRange (capacity : Int) (front : Lot) (s : LoadState) : Prop :=
  InIntRange (capacity - s.totalLoaded) ∧
  InIntRange (s.totalLoaded + min (capacity - s.totalLoaded) front.2) ∧
  InIntRange (front.2 - min (capacity - s.totalLoaded) front.2)

instance (capacity : Int) (front : Lot) (s : LoadState) :
    Decidable (BodyInIntRange capacity front s) :=
  inferInstanceAs (Decidable (_ ∧ _ ∧ _))

/-- The loop of lines 68-79 with overflow detection: as `transportLoop`, but `none`
also when an iteration computes a value outside the range of `int`, which is
undefined behaviour in C++. -/
def transportLoopChecked (capacity : Int) : Nat → LoadState → Option LoadState
  | 0, _ => none
  | fuel + 1, s =>
    match s.warehouse with
    | [] => some s
    | front :: rest =>
      if s.totalLoaded < capacity then
        if BodyInIntRange capacity front s then
          transportLoopChecked capacity fuel (loopBody capacity front rest s)
        else none
      else some s

/-- Reduction of an exact result into the range of a 32-bit `int` (two's complement):
what the compiled program stores when an `int` operation overflows. -/
def wrapInt (x : Int) : Int := (x + 2147483648) % 4294967296 - 2147483648

/-- The loop body, lines 69-78, in 32-bit arithmetic: as `loopBody`, with the results
of the subtraction of line 70, the addition of line 71 and the subtraction of line 77
reduced into the range of `int`. -/
def loopBody32 (capacity : Int) (front : Lot) (rest : List Lot) (s : LoadState) : LoadState :=
  let toLoad := min (wrapInt (capacity - s.totalLoaded)) front.2
  { warehouse := if toLoad = front.2 then rest else (front.1, wrapInt (front.2 - toLoad)) :: rest
    totalLoaded := wrapInt (s.totalLoaded + toLoad)
    loadedProducts := s.loadedProducts ++ [(front.1, toLoad)] }

/-- The loop of lines 68-79 in 32-bit arithmetic; `fuel` as in `transportLoop`. -/
def transportLoop32 (capacity : Int) : Nat → LoadState → Option LoadState
  | 0, _ => none
  | fuel + 1, s =>
    match s.warehouse with
    | [] => some s
    | front :: rest =>
      if s.totalLoaded < capacity then
        transportLoop32 capacity fuel (loopBody32 capacity front rest s)
      else some s

/-- Lines 65-79 as a whole in 32-bit arithmetic. -/
def drain32 (capacity : Int) (warehouse : List Lot) : Option LoadState :=
  transportLoop32 capacity (warehouse.length + 1) (LoadState.start warehouse)

/-- Lines 65-79 as a whole with overflow detection: the result of the drain when no
`int` operation of it overflows, `none` when one does. -/
def drainChecked (capacity : Int) (warehouse : List Lot) : Option LoadState :=
  transportLoopChecked capacity (warehouse.length + 1) (LoadState.start warehouse)

/-- The exact loop started in the first state is, after some number of iterations, in
the second state. -/
inductive LoopReaches (capacity : Int) : LoadState → LoadState → Prop
  | refl (s : LoadState) : LoopReaches capacity s s
  | step (s x : LoadState) (front : Lot) (rest : List Lot) :
      s.warehouse = front :: rest → s.totalLoaded < capacity →
      LoopReaches capacity (loopBody capacity front rest s) x → LoopReaches capacity s x

/-- Every lot of the queue has a quantity that is not negative. -/
def AllNonneg (l : List Lot) : Prop := ∀ x ∈ l, 0 ≤ x.2

instance (l : List Lot) : Decidable (AllNonneg l) :=
  inferInstanceAs (Decidable (∀ x ∈ l, 0 ≤ x.2))

/-- Every quantity of the queue is representable as `int`. -/
def AllInIntRange (l : List Lot) : Prop := ∀ x ∈ l, InIntRange x.2

instance (l : List Lot) : Decidable (AllInIntRange l) :=
  inferInstanceAs (Decidable (∀ x ∈ l, InIntRange x.2))

/-! ## Factories -/

/-- The `Product` struct (lines 15-22); only `name` is used by the simulation. -/
structure Product where
  name : String
  weight : ℚ
  packagingType : String

/-- The data members of `Factory` (lines 27-29).  `productionRate` is a `double`;
every finite `double` is a rational number, so the model lets it range over `ℚ`.
Rates that are infinite or not a number are not represented. -/
structure Factory where
  name : String
  product : Product
  productionRate : ℚ

/-- The conversion `static_cast<int>(double)` of line 37: truncation toward zero when
the truncated value is representable as `int`.  Otherwise the conversion is undefined
behaviour in C++; the compiled program (x86-64) then yields `INT_MIN`, and so does the
model. -/
def staticCastInt (r : ℚ) : Int :=
  if InIntRange (Int.tdiv r.num r.den) then Int.tdiv r.num r.den else INT_MIN

/-- The lot built by one cycle of `Factory::produce` (lines 37 and 40):
`{product.name, amount}` with `amount = static_cast<int>(productionRate)`. -/
def Factory.lot (f : Factory) : Lot := (f.product.name, staticCastInt f.productionRate)

/-- The critical section of `Factory::produce`, line 40: `warehouse.push(...)` appends
the lot at the back of the queue. -/
def Factory.produce (f : Factory) (warehouse : List Lot) : List Lot := warehouse ++ [f.lot]

/-! ## Threads and the shared state -/

/-- Control points of one `Truck::transport` thread.  The spec's `WAITING` covers
`acquiring`, `waiting`, `blocking` and `blocked`; `loopTest` is the evaluation of
`while (!shouldStop)` (line 59) that separates `RECORDING` from `WAITING`. -/
inductive Phase
  /-- Line 59, about to evaluate `!shouldStop`. -/
  | loopTest
  /-- Line 60, or inside `cv.wait` after a wake-up: waiting to own the mutex. -/
  | acquiring
  /-- Line 61, mutex owned, about to evaluate the wait predicate. -/
  | waiting
  /-- Line 61, the predicate was false; the mutex is still owned and the thread is
  about to release it and go to sleep on the condition variable. -/
  | blocking
  /-- Line 61, asleep on the condition variable, mutex released. -/
  | blocked
  /-- Lines 65-81, mutex owned. -/
  | loading
  /-- Line 84, no mutex owned. -/
  | transit
  /-- Lines 87-92. -/
  | recording
  /-- The function `transport` has returned. -/
  | stopped
deriving DecidableEq, Repr

/-- One truck thread: the member `capacity`, the control point, and the locals
`totalLoaded` and `loadedProducts` of the current iteration. -/
structure TruckThread where
  capacity : Int
  phase : Phase
  totalLoaded : Int
  loadedProducts : List Lot
deriving DecidableEq, Repr

/-- The objects of `main` shared by the threads: `warehouse`, `transportStatistics`,
`shouldStop`, and the owner of `warehouseMutex` (a truck index, `none` when free).
`pushed` and `trips` are history variables that are not in the source: the sum of
all quantities pushed so far and the number of completed drains (trips). -/
structure Shared where
  warehouse : List Lot
  statistics : List Lot
  shouldStop : Bool
  mutexOwner : Option Nat
  pushed : Int
  trips : Nat
deriving DecidableEq, Repr

/-- One atomic step of truck thread `i` (`Truck::transport`, lines 59-96); `none`
when the thread cannot move (mutex owned by someone else, asleep, or returned).  The
loading loop is computed in exact integers (`drain`); `Truck.transportStep32` computes
it in 32-bit arithmetic, with the same result as long as the capacity is representable
and the queue holds non-negative representable quantities (`truckStep32_eq`). -/
def Truck.transportStep (i : Nat) (sh : Shared) (t : TruckThread) :
    Option (Shared × TruckThread) :=
  match t.phase with
  -- line 59: `while (!shouldStop)`
  | Phase.loopTest =>
    if sh.shouldStop then some (sh, { t with phase := Phase.stopped })
    else some (sh, { t with phase := Phase.acquiring })
  -- line 60 (and the re-acquisition inside `cv.wait`): lock the mutex when it is free
  | Phase.acquiring =>
    match sh.mutexOwner with
    | none => some ({ sh with mutexOwner := some i }, { t with phase := Phase.waiting })
    | some _ => none
  -- line 61: the predicate `!warehouse.empty() || shouldStop`; when it holds, line 63:
  -- `if (shouldStop && warehouse.empty()) break;`, which releases the mutex
  | Phase.waiting =>
    if !sh.warehouse.isEmpty || sh.shouldStop then
      if sh.shouldStop && sh.warehouse.isEmpty then
        some ({ sh with mutexOwner := none }, { t with phase := Phase.stopped })
      else some (sh, { t with phase := Phase.loading })
    else some (sh, { t with phase := Phase.blocking })
  -- line 61, inside `cv.wait`: release the mutex and sleep, atomically
  | Phase.blocking => some ({ sh with mutexOwner := none }, { t with phase := Phase.blocked })
  | Phase.blocked => none
  -- lines 65-81: the loading loop, then `lock.unlock()`
  | Phase.loading =>
    match drain t.capacity sh.warehouse with
    | none => none
    | some r =>
      some ({ sh with warehouse := r.warehouse, mutexOwner := none },
            { t with phase := Phase.transit, totalLoaded := r.totalLoaded,
                     loadedProducts := r.loadedProducts })
  -- line 84: the sleep
  | Phase.transit => some (sh, { t with phase := Phase.recording })
  -- lines 87-92: lock the mutex when it is free, append the records, unlock
  | Phase.recording =>
    match sh.mutexOwner with
    | none =>
      some ({ sh with statistics := sh.statistics ++ t.loadedProducts, trips := sh.trips + 1 },
            { t with phase := Phase.loopTest })
    | some _ => none
  | Phase.stopped => none

/-- Control points of the end of `main`: before line 160, between lines 160 and 161,
and after line 161. -/
inductive MainPc
  /-- Before line 160. -/
  | running
  /-- After `shouldStop = true`, before `cv.notify_all()`. -/
  | flagSet
  /-- After `cv.notify_all()`: joining the threads. -/
  | notified
deriving DecidableEq, Repr

/-- The whole simulation: shared objects, the truck threads and `main`. -/
structure System where
  shared : Shared
  trucks : List TruckThread
  mainPc : MainPc
deriving DecidableEq, Repr

/-- What the scheduler may let happen next. -/
inductive Event
  /-- Some factory thread executes its critical section, lines 39-42.  The test of
  line 36 is not part of the event: a factory can be past it when the flag is set. -/
  | produce (f : Factory)
  /-- Truck `i`, asleep in `cv.wait`, is woken: by the `notify_one` of line 43, or
  spuriously. -/
  | wake (i : Nat)
  /-- Truck `i` takes its next step. -/
  | truck (i : Nat)
  /-- The orchestrator takes its next step: line 160, then line 161. -/
  | main

/-- Effect of a notification on one truck: a sleeping thread leaves the sleep and
has to re-acquire the mutex; any other thread is unaffected. -/
def TruckThread.notified (t : TruckThread) : TruckThread :=
  if t.phase = Phase.blocked then { t with phase := Phase.acquiring } else t

/-- Effect of one event; an event that is not enabled leaves the state unchanged. -/
def System.step (e : Event) (s : System) : System :=
  match e with
  | Event.produce f =>
    match s.shared.mutexOwner with
    | none =>
      { s with shared := { s.shared with warehouse := f.produce s.shared.warehouse,
                                         pushed := s.shared.pushed + f.lot.2 } }
    | some _ => s
  | Event.wake i =>
    match s.trucks[i]? with
    | none => s
    | some t => { s with trucks := s.trucks.set i t.notified }
  | Event.truck i =>
    match s.trucks[i]? with
    | none => s
    | some t =>
      match Truck.transportStep i s.shared t with
      | none => s
      | some (sh, t') => { s with shared := sh, trucks := s.trucks.set i t' }
  | Event.main =>
    match s.mainPc with
    | MainPc.running =>
      { s with shared := { s.shared with shouldStop := true }, mainPc := MainPc.flagSet }
    | MainPc.flagSet =>
      { s with trucks := s.trucks.map TruckThread.notified, mainPc := MainPc.notified }
    | MainPc.notified => s

/-- The state when the threads are started (lines 125-154): empty queue, empty
statistics, flag clear, one thread per truck at the top of its loop. -/
def System.init (capacities : List Int) : System :=
  { shared := { warehouse := [], statistics := [], shouldStop := false, mutexOwner := none,
                pushed := 0, trips := 0 }
    trucks := capacities.map fun c =>
      { capacity := c, phase := Phase.loopTest, totalLoaded := 0, loadedProducts := [] }
    mainPc := MainPc.running }

/-- The state after a schedule, a sequence of events. -/
def System.run (evs : List Event) (s : System) : System :=
  evs.foldl (fun st e => System.step e st) s

/-- One atomic step of truck thread `i` in 32-bit arithmetic: as `Truck.transportStep`,
with the loading loop of lines 65-79 computed by `drain32`. -/
def Truck.transportStep32 (i : Nat) (sh : Shared) (t : TruckThread) :
    Option (Shared × TruckThread) :=
  match t.phase with
  | Phase.loading =>
    match drain32 t.capacity sh.warehouse with
    | none => none
    | some r =>
      some ({ sh with warehouse := r.warehouse, mutexOwner := none },
            { t with phase := Phase.transit, totalLoaded := r.totalLoaded,
                     loadedProducts := r.loadedProducts })
  | _ => Truck.transportStep i sh t

/-- Effect of one event in 32-bit arithmetic: as `System.step`, with the steps of the
trucks taken by `Truck.transportStep32`. -/
def System.step32 (e : Event) (s : System) : System :=
  match e with
  | Event.truck i =>
    match s.trucks[i]? with
    | none => s
    | some t =>
      match Truck.transportStep32 i s.shared t with
      | none => s
      | some (sh, t') => { s with shared := sh, trucks := s.trucks.set i t' }
  | _ => System.step e s

/-- The state after a schedule in 32-bit arithmetic. -/
def System.run32 (evs : List Event) (s : System) : System :=
  evs.foldl (fun st e => System.step32 e st) s

/-- The queue holds only non-negative quantities representable as `int`, and the
capacity of every truck is representable as `int`. -/
def System.Representable (s : System) : Prop :=
  (AllNonneg s.shared.warehouse ∧ AllInIntRange s.shared.warehouse) ∧
  ∀ t ∈ s.trucks, InIntRange t.capacity

/-- The units a truck has taken off the queue and not yet appended to the statistics. -/
def TruckThread.pending (t : TruckThread) : Int :=
  if t.phase = Phase.transit ∨ t.phase = Phase.recording then sumQty t.loadedProducts else 0

/-- The event is a step of a truck or of the orchestrator (no push, no wake-up). -/
def Event.isTruckOrMain : Event → Bool
  | Event.truck _ => true
  | Event.main => true
  | _ => false

/-! ## Teardown report (lines 172-183) -/

/-- The `std::map<std::string, int>` of line 173 as a total function; a key that is
absent reads as `0`, as `operator[]` does. -/
abbrev Totals := String → Int

/-- Line 175: `totalTransported[stat.first] += stat.second`. -/
def Totals.add (m : Totals) (stat : Lot) : Totals :=
  fun k => if k = stat.1 then m k + stat.2 else m k

/-- Lines 173-176: the per-product totals. -/
def totalTransported (statistics : List Lot) : Totals :=
  statistics.foldl Totals.add (fun _ => 0)

/-- Line 182: `transportStatistics.size() / trucks.size()`. -/
def totalTrips (numTrucks : Nat) (statistics : List Lot) : Nat :=
  statistics.length / numTrucks

/-- Line 183, the figure printed as "Average units per trip":
`(totalTransported["A"] + totalTransported["B"] + totalTransported["C"]) / totalTrips`
with `int` division (truncating).  `none` stands for a division by zero, which has no
defined result (of `size_t` at line 182 when there is no truck, of `int` at line 183). -/
def averageUnitsPerTrip (numTrucks : Nat) (statistics : List Lot) : Option Int :=
  if numTrucks = 0 then none
  else if totalTrips numTrucks statistics = 0 then none
  else
    let m := totalTransported statistics
    some (Int.tdiv (m "A" + m "B" + m "C") (totalTrips numTrucks statistics))

/-- The figure the specification asks for: total units transported divided by the
number of completed drains, `none` ("no trips") when there was no drain. -/
def specAveragePerTrip (trips : Nat) (statistics : List Lot) : Option Int :=
  if trips = 0 then none else some (Int.tdiv (sumQty statistics) trips)

/-- The joins of lines 164-169 have returned: `main` is past the broadcast and every
truck thread has returned. -/
def System.joined (s : System) : Bool :=
  decide (s.mainPc = MainPc.notified) && s.trucks.all fun t => decide (t.phase = Phase.stopped)

/-- The figure of line 183 computed from the state at teardown, with
`trucks.size()` trucks. -/
def System.report (s : System) : Option Int :=
  averageUnitsPerTrip s.trucks.length s.shared.statistics

/-! ## Configuration of `main` -/

/-- The `double` value of `1.1 * n` for `n = 50` (line 111): the product is rounded to
`55.00000000000000710542735760100185871124267578125`. -/
def rateB : ℚ :=
  { num := 7740561859543041, den := 140737488355328, den_nz := by decide, reduced := by decide }

/-- Lines 104-113: the first factory, with rate `n = 50`.  (The weights of the products
are not used anywhere; they are written as decimal fractions.) -/
def factoryA : Factory :=
  { name := "Factory A", product := ⟨"A", 1, "Box"⟩, productionRate := 50 }

/-- Second factory of `main`, with rate `1.1 * n`. -/
def factoryB : Factory :=
  { name := "Factory B", product := ⟨"B", 6 / 5, "Bag"⟩, productionRate := rateB }

/-- Third factory of `main`, with rate `1.2 * n`, which is the `double` 60. -/
def factoryC : Factory :=
  { name := "Factory C", product := ⟨"C", 4 / 5, "Container"⟩, productionRate := 60 }

/-- Lines 133-136: `Truck(50)` and `Truck(100)`. -/
def mainTrucks : List Int := [50, 100]

/-- The event is not a push by a factory whose rate is below `lo` units per cycle or
too large for its truncation to be representable as `int`: for a push, the rate `r`
satisfies `lo ≤ r < 2^31`. -/
def Event.RateBetween (lo : ℚ) : Event → Prop
  | Event.produce f => lo ≤ f.productionRate ∧ f.productionRate < 2147483648
  | _ => True

/-- The event changes the state, that is, it is enabled. -/
def System.enabled (e : Event) (s : System) : Bool := decide (System.step e s ≠ s)

/-- The state after a schedule all of whose events are enabled when they are taken;
`none` when some event of the schedule is not enabled. -/
def System.runStrict : List Event → System → Option System
  | [], s => some s
  | e :: evs, s => if System.enabled e s then System.runStrict evs (System.step e s) else none

/-- Sum of the quantities of the lots pushed by the `produce` events of a schedule. -/
def producedQty : List Event → Int
  | [] => 0
  | Event.produce f :: evs => f.lot.2 + producedQty evs
  | _ :: evs => producedQty evs

/-! ## Concrete schedules -/

/-- One full cycle of truck `i` that finds a non-empty queue: loop test, lock, wait
predicate, loading, transit, recording. -/
def truckCycle (i : Nat) : List Event :=
  [Event.truck i, Event.truck i, Event.truck i, Event.truck i, Event.truck i, Event.truck i]

/-- Factory A pushes 50 units and the first truck carries them away, twice. -/
def twoTripsSchedule : List Event :=
  [Event.produce factoryA] ++ truckCycle 0 ++ [Event.produce factoryA] ++ truckCycle 0

/-- The end of a run with two idle trucks: `main` sets the flag and broadcasts, and
each truck evaluates its loop condition and returns. -/
def shutdownSchedule : List Event :=
  [Event.main, Event.main, Event.truck 0, Event.truck 1]

/-- A whole run with two trips: `twoTripsSchedule`, then the shutdown. -/
def twoTripsRun : List Event := twoTripsSchedule ++ shutdownSchedule

/-- A whole run with one trip: factory A pushes 50 units, the first truck carries them
away, then the shutdown. -/
def oneTripRun : List Event := [Event.produce factoryA] ++ truckCycle 0 ++ shutdownSchedule

/-- Factories A and B push, the first truck drains and is in transit when `main` sets
the stop flag; the truck then records and evaluates its loop condition. -/
def stopAfterLoadSchedule : List Event :=
  [Event.produce factoryA, Event.produce factoryB,
   Event.truck 0, Event.truck 0, Event.truck 0, Event.truck 0, Event.truck 0,
   Event.main, Event.truck 0, Event.truck 0]

/-- Factory A pushes, the first truck carries the lot away and comes back to an empty
queue: it locks, finds the wait predicate false and is about to sleep.  At that moment
`main` executes `shouldStop = true; cv.notify_all();`.  Then the first truck goes to
sleep and the second truck, which had not started its loop yet, sees the flag. -/
def lostWakeupSchedule : List Event :=
  [Event.produce factoryA] ++ truckCycle 0 ++
  [Event.truck 0, Event.truck 0, Event.truck 0,
   Event.main, Event.main,
   Event.truck 0, Event.truck 1]

/-- A factory whose rate, three thousand million units per cycle, truncates to a value
above `INT_MAX`. -/
def hugeFactory : Factory :=
  { name := "Factory H", product := ⟨"H", 1, "Box"⟩, productionRate := 3000000000 }

/-- A factory whose rate is half a unit per cycle. -/
def slowFactory : Factory :=
  { name := "Factory S", product := ⟨"S", 1, "Box"⟩, productionRate := 1 / 2 }

/-! ## The loading loop: termination and the invariant rule -/

theorem sumQty_nil : sumQty [] = 0 := rfl

theorem sumQty_cons (x : Lot) (l : List Lot) : sumQty (x :: l) = x.2 + sumQty l := by
  simp [sumQty]

theorem sumQty_append (l₁ l₂ : List Lot) : sumQty (l₁ ++ l₂) = sumQty l₁ + sumQty l₂ := by
  simp [sumQty]

theorem sumQty_nonneg_of_allPositive {l : List Lot} (h : AllPositive l) : 0 ≤ sumQty l := by
  induction l with
  | nil => simp [sumQty]
  | cons x l ih =>
    rw [sumQty_cons]
    have hx : 0 < x.2 := h x (List.mem_cons_self _ _)
    have hl : 0 ≤ sumQty l := ih (fun y hy => h y (List.mem_cons_of_mem _ hy))
    omega

/-- When the body does not pop the front lot it has used up the whole capacity. -/
theorem loopBody_total_of_not_pop (capacity : Int) (front : Lot) (rest : List Lot)
    (s : LoadState) (h : min (capacity - s.totalLoaded) front.2 ≠ front.2) :
    (loopBody capacity front rest s).totalLoaded = capacity := by
  have : min (capacity - s.totalLoaded) front.2 = capacity - s.totalLoaded := by
    rcases min_choice (capacity - s.totalLoaded) front.2 with h' | h'
    · exact h'
    · exact absurd h' h
  simp only [loopBody, this]
  omega

/-- The loop returns as soon as the fuel exceeds the queue length; it also returns
with any positive fuel once the capacity is used up. -/
theorem transportLoop_returns (capacity : Int) :
    ∀ (fuel : Nat) (s : LoadState),
      (s.warehouse.length < fuel ∨ (0 < fuel ∧ ¬ s.totalLoaded < capacity)) →
      ∃ r, transportLoop capacity fuel s = some r := by
  intro fuel
  induction fuel with
  | zero => intro s h; rcases h with h | ⟨h, _⟩ <;> omega
  | succ n ih =>
    intro s h
    rcases hw : s.warehouse with _ | ⟨front, rest⟩
    · exact ⟨s, by simp [transportLoop, hw]⟩
    · by_cases hc : s.totalLoaded < capacity
      · simp only [transportLoop, hw, hc, if_true]
        apply ih
        have hlen : rest.length < n := by
          rcases h with h | ⟨_, h⟩
          · rw [hw] at h; simp at h; omega
          · exact absurd hc h
        by_cases hp : min (capacity - s.totalLoaded) front.2 = front.2
        · left; simp [loopBody, hp]; exact hlen
        · right
          refine ⟨by omega, ?_⟩
          rw [loopBody_total_of_not_pop capacity front rest s hp]
          omega
      · exact ⟨s, by simp [transportLoop, hw, hc]⟩

/-- The loading loop of a drain always terminates. -/
theorem drain_returns (capacity : Int) (warehouse : List Lot) :
    ∃ r, drain capacity warehouse = some r :=
  transportLoop_returns capacity _ _ (Or.inl (by simp [LoadState.start]))

/-- Invariant rule for the loop: a property that holds initially and is preserved by
every execution of the body under the loop condition holds on exit, where moreover the
loop condition is false. -/
theorem transportLoop_invariant (capacity : Int) (Inv : LoadState → Prop)
    (hstep : ∀ (s : LoadState) (front : Lot) (rest : List Lot),
      s.warehouse = front :: rest → s.totalLoaded < capacity → Inv s →
      Inv (loopBody capacity front rest s)) :
    ∀ (fuel : Nat) (s r : LoadState), Inv s → transportLoop capacity fuel s = some r →
      Inv r ∧ (r.warehouse = [] ∨ ¬ r.totalLoaded < capacity) := by
  intro fuel
  induction fuel with
  | zero => intro s r _ h; simp [transportLoop] at h
  | succ n ih =>
    intro s r hinv h
    rcases hw : s.warehouse with _ | ⟨front, rest⟩
    · simp only [transportLoop, hw] at h
      cases h
      exact ⟨hinv, Or.inl hw⟩
    · by_cases hc : s.totalLoaded < capacity
      · simp only [transportLoop, hw, hc, if_true] at h
        exact ih _ r (hstep s front rest hw hc hinv) h
      · simp only [transportLoop, hw, hc, if_false] at h
        cases h
        exact ⟨hinv, Or.inr hc⟩

/-- A result of the loop does not depend on how much fuel was left over. -/
theorem transportLoop_fuel_mono (capacity : Int) :
    ∀ (fuel : Nat) (s r : LoadState), transportLoop capacity fuel s = some r →
      ∀ fuel', fuel ≤ fuel' → transportLoop capacity fuel' s = some r := by
  intro fuel
  induction fuel with
  | zero => intro s r h; simp [transportLoop] at h
  | succ n ih =>
    intro s r h fuel' hle
    obtain ⟨m, rfl⟩ : ∃ m, fuel' = m + 1 := ⟨fuel' - 1, by omega⟩
    rcases hw : s.warehouse with _ | ⟨front, rest⟩
    · simp only [transportLoop, hw] at h ⊢; exact h
    · by_cases hc : s.totalLoaded < capacity
      · simp only [transportLoop, hw, hc, if_true] at h ⊢
        exact ih _ r h m (by omega)
      · simp only [transportLoop, hw, hc, if_false] at h ⊢; exact h


/-! ## Properties of one drain -/

theorem loopBody_sum (capacity : Int) (front : Lot) (rest : List Lot) (s : LoadState) :
    sumQty (loopBody capacity front rest s).loadedProducts
        + sumQty (loopBody capacity front rest s).warehouse
      = sumQty s.loadedProducts + sumQty (front :: rest) := by
  simp only [loopBody]
  split_ifs with h
  · rw [sumQty_append, sumQty_cons, sumQty_cons, sumQty_nil, h]; omega
  · rw [sumQty_append, sumQty_cons, sumQty_cons, sumQty_cons, sumQty_nil]
    simp only
    omega

/-- Units are neither created nor lost by the loop. -/
theorem transportLoop_conservation (capacity : Int) (fuel : Nat) (s r : LoadState)
    (h : transportLoop capacity fuel s = some r) :
    sumQty r.loadedProducts + sumQty r.warehouse
      = sumQty s.loadedProducts + sumQty s.warehouse := by
  refine (transportLoop_invariant capacity
    (fun x => sumQty x.loadedProducts + sumQty x.warehouse
      = sumQty s.loadedProducts + sumQty s.warehouse) ?_ fuel s r rfl h).1
  intro x front rest hw _ hinv
  rw [loopBody_sum, ← hw]
  exact hinv

theorem drain_conservation {capacity : Int} {warehouse : List Lot} {r : LoadState}
    (h : drain capacity warehouse = some r) :
    sumQty r.loadedProducts + sumQty r.warehouse = sumQty warehouse := by
  have := transportLoop_conservation capacity _ _ r h
  simpa [LoadState.start, sumQty_nil] using this

/-- The local `totalLoaded` is the sum of the amounts recorded by the drain. -/
theorem drain_total_eq {capacity : Int} {warehouse : List Lot} {r : LoadState}
    (h : drain capacity warehouse = some r) :
    r.totalLoaded = sumQty r.loadedProducts := by
  refine (transportLoop_invariant capacity
    (fun x => x.totalLoaded = sumQty x.loadedProducts) ?_ _ _ r ?_ h).1
  · intro x front rest _ _ hinv
    simp only [loopBody]
    rw [sumQty_append, sumQty_cons, sumQty_nil, hinv]
    simp
  · simp [LoadState.start, sumQty_nil]

/-- The total never exceeds the capacity, except that it is `0` when the capacity is
negative. -/
theorem drain_total_le_max {capacity : Int} {warehouse : List Lot} {r : LoadState}
    (h : drain capacity warehouse = some r) :
    r.totalLoaded ≤ max capacity 0 := by
  refine (transportLoop_invariant capacity
    (fun x => x.totalLoaded ≤ max capacity 0) ?_ _ _ r ?_ h).1
  · intro x front rest _ hc _
    simp only [loopBody]
    have h1 : min (capacity - x.totalLoaded) front.2 ≤ capacity - x.totalLoaded :=
      min_le_left _ _
    have h2 : capacity ≤ max capacity 0 := le_max_left _ _
    omega
  · simp [LoadState.start]

theorem drain_exit {capacity : Int} {warehouse : List Lot} {r : LoadState}
    (h : drain capacity warehouse = some r) :
    r.warehouse = [] ∨ ¬ r.totalLoaded < capacity :=
  (transportLoop_invariant capacity (fun _ => True) (fun _ _ _ _ _ _ => trivial)
    _ _ r trivial h).2

/-- On a queue of positive lots the body loads a positive amount and leaves only
positive lots. -/
theorem loopBody_positive (capacity : Int) (front : Lot) (rest : List Lot) (s : LoadState)
    (hc : s.totalLoaded < capacity) (hq : AllPositive (front :: rest))
    (hl : AllPositive s.loadedProducts) :
    AllPositive (loopBody capacity front rest s).warehouse
      ∧ AllPositive (loopBody capacity front rest s).loadedProducts := by
  have hf : 0 < front.2 := hq front (List.mem_cons_self _ _)
  have hr : AllPositive rest := fun y hy => hq y (List.mem_cons_of_mem _ hy)
  have hmin : 0 < min (capacity - s.totalLoaded) front.2 := lt_min (by omega) hf
  constructor
  · simp only [loopBody]
    split_ifs with h
    · exact hr
    · intro y hy
      rcases List.mem_cons.1 hy with rfl | hy
      · have : min (capacity - s.totalLoaded) front.2 ≤ front.2 := min_le_right _ _
        simp only
        omega
      · exact hr y hy
  · simp only [loopBody]
    intro y hy
    rcases List.mem_append.1 hy with hy | hy
    · exact hl y hy
    · simp only [List.mem_singleton] at hy
      subst hy
      exact hmin

/-- A drain of a queue of positive lots leaves only positive lots and records only
positive amounts. -/
theorem drain_positive {capacity : Int} {warehouse : List Lot} {r : LoadState}
    (hpos : AllPositive warehouse) (h : drain capacity warehouse = some r) :
    AllPositive r.warehouse ∧ AllPositive r.loadedProducts := by
  refine (transportLoop_invariant capacity
    (fun x => AllPositive x.warehouse ∧ AllPositive x.loadedProducts) ?_ _ _ r ?_ h).1
  · intro x front rest hw hc hinv
    exact loopBody_positive capacity front rest x hc (hw ▸ hinv.1) hinv.2
  · exact ⟨hpos, fun y hy => by simp [LoadState.start] at hy⟩

/-- On a queue of positive lots and with a non-negative capacity, a drain loads
`min(capacity, everything)`. -/
theorem drain_total_eq_min {capacity : Int} {warehouse : List Lot} {r : LoadState}
    (hpos : AllPositive warehouse) (hcap : 0 ≤ capacity)
    (h : drain capacity warehouse = some r) :
    r.totalLoaded = min capacity (sumQty warehouse) := by
  have hcons := drain_conservation h
  have htot := drain_total_eq h
  have hle := drain_total_le_max h
  have hrest := sumQty_nonneg_of_allPositive (drain_positive hpos h).1
  rw [max_eq_left hcap] at hle
  rcases drain_exit h with he | he
  · rw [he, sumQty_nil] at hcons
    rw [min_eq_right (by omega)]
    omega
  · have : r.totalLoaded = capacity := by omega
    rw [min_eq_left (by omega)]
    exact this

/-- No intermediate value of the loop body leaves the range of `int` when the capacity
and the front lot are inside it, the front lot is non-negative and the total so far is
non-negative and below the capacity. -/
theorem loopBody_inIntRange (capacity : Int) (front : Lot) (rest : List Lot) (s : LoadState)
    (hcap : InIntRange capacity) (hq : InIntRange front.2) (hq0 : 0 ≤ front.2)
    (ht0 : 0 ≤ s.totalLoaded) (hc : s.totalLoaded < capacity) :
    InIntRange (capacity - s.totalLoaded)
      ∧ InIntRange (min (capacity - s.totalLoaded) front.2)
      ∧ InIntRange (loopBody capacity front rest s).totalLoaded
      ∧ InIntRange (front.2 - min (capacity - s.totalLoaded) front.2)
      ∧ 0 ≤ (loopBody capacity front rest s).totalLoaded
      ∧ (loopBody capacity front rest s).totalLoaded ≤ capacity := by
  simp only [InIntRange, INT_MIN, INT_MAX, loopBody] at *
  rcases min_choice (capacity - s.totalLoaded) front.2 with h | h <;>
    have h1 : min (capacity - s.totalLoaded) front.2 ≤ capacity - s.totalLoaded :=
      min_le_left _ _ <;>
    have h2 : min (capacity - s.totalLoaded) front.2 ≤ front.2 := min_le_right _ _ <;>
    rw [h] at h1 h2 ⊢ <;> omega

/-- The model computes the result of every run of the loop that does not overflow. -/
theorem transportLoopChecked_some (capacity : Int) :
    ∀ (fuel : Nat) (s r : LoadState), transportLoopChecked capacity fuel s = some r →
      transportLoop capacity fuel s = some r := by
  intro fuel
  induction fuel with
  | zero => intro s r h; simp [transportLoopChecked] at h
  | succ n ih =>
    intro s r h
    rcases hw : s.warehouse with _ | ⟨front, rest⟩
    · simp only [transportLoopChecked, transportLoop, hw] at h ⊢; exact h
    · by_cases hc : s.totalLoaded < capacity
      · simp only [transportLoopChecked, transportLoop, hw, hc, if_true] at h ⊢
        split_ifs at h
        exact ih _ r h
      · simp only [transportLoopChecked, transportLoop, hw, hc, if_false] at h ⊢; exact h

/-- On a queue of non-negative lots, with capacity and quantities representable as
`int`, no iteration of the loop overflows. -/
theorem transportLoopChecked_eq (capacity : Int) (hcap : InIntRange capacity) :
    ∀ (fuel : Nat) (s : LoadState),
      (∀ x ∈ s.warehouse, 0 ≤ x.2 ∧ InIntRange x.2) → 0 ≤ s.totalLoaded →
      transportLoopChecked capacity fuel s = transportLoop capacity fuel s := by
  intro fuel
  induction fuel with
  | zero => intro s _ _; rfl
  | succ n ih =>
    intro s hq ht
    rcases hw : s.warehouse with _ | ⟨front, rest⟩
    · simp only [transportLoopChecked, transportLoop, hw]
    · by_cases hc : s.totalLoaded < capacity
      · have hf := hq front (by rw [hw]; exact List.mem_cons_self _ _)
        have hr : ∀ x ∈ rest, 0 ≤ x.2 ∧ InIntRange x.2 :=
          fun x hx => hq x (by rw [hw]; exact List.mem_cons_of_mem _ hx)
        have hb := loopBody_inIntRange capacity front rest s hcap hf.2 hf.1 ht hc
        have hin : BodyInIntRange capacity front s := ⟨hb.1, hb.2.2.1, hb.2.2.2.1⟩
        simp only [transportLoopChecked, transportLoop, hw, hc, hin, if_true]
        apply ih _ _ hb.2.2.2.2.1
        intro x hx
        simp only [loopBody] at hx
        split_ifs at hx with hp
        · exact hr x hx
        · rcases List.mem_cons.1 hx with rfl | hx
          · have h2 : min (capacity - s.totalLoaded) front.2 ≤ front.2 := min_le_right _ _
            have h3 := hb.2.2.2.1
            have h4 := hf.2
            simp only [InIntRange] at h3 h4 ⊢
            omega
          · exact hr x hx
      · simp only [transportLoopChecked, transportLoop, hw, hc, if_false]

/-! ## The loop in 32-bit arithmetic -/

/-- Reduction into the range of `int` leaves a representable value unchanged. -/
theorem wrapInt_eq (x : Int) (h : InIntRange x) : wrapInt x = x := by
  simp only [InIntRange, INT_MIN, INT_MAX] at h
  unfold wrapInt
  omega

theorem wrapInt_inIntRange (x : Int) : InIntRange (wrapInt x) := by
  simp only [InIntRange, INT_MIN, INT_MAX]
  unfold wrapInt
  omega

/-- An execution of the loop body without overflow computes the exact result. -/
theorem loopBody32_eq_loopBody (capacity : Int) (front : Lot) (rest : List Lot) (s : LoadState)
    (h : BodyInIntRange capacity front s) :
    loopBody32 capacity front rest s = loopBody capacity front rest s := by
  obtain ⟨h1, h2, h3⟩ := h
  simp only [loopBody32, loopBody, wrapInt_eq _ h1, wrapInt_eq _ h2, wrapInt_eq _ h3]

/-- A run of the loop without overflow is a run of the 32-bit loop. -/
theorem transportLoopChecked_some32 (capacity : Int) :
    ∀ (fuel : Nat) (s r : LoadState), transportLoopChecked capacity fuel s = some r →
      transportLoop32 capacity fuel s = some r := by
  intro fuel
  induction fuel with
  | zero => intro s r h; simp [transportLoopChecked] at h
  | succ n ih =>
    intro s r h
    rcases hw : s.warehouse with _ | ⟨front, rest⟩
    · simp only [transportLoopChecked, transportLoop32, hw] at h ⊢; exact h
    · by_cases hc : s.totalLoaded < capacity
      · simp only [transportLoopChecked, transportLoop32, hw, hc, if_true] at h ⊢
        split_ifs at h with hb
        rw [loopBody32_eq_loopBody capacity front rest s hb]
        exact ih _ r h
      · simp only [transportLoopChecked, transportLoop32, hw, hc, if_false] at h ⊢; exact h

/-- A drain without overflow: the 32-bit drain and the exact drain both return its
result. -/
theorem drainChecked_some {capacity : Int} {warehouse : List Lot} {r : LoadState}
    (h : drainChecked capacity warehouse = some r) :
    drain32 capacity warehouse = some r ∧ drain capacity warehouse = some r :=
  ⟨transportLoopChecked_some32 capacity _ _ r h, transportLoopChecked_some capacity _ _ r h⟩

/-- On a queue of non-negative representable quantities and with a representable
capacity no operation of the drain overflows. -/
theorem drainChecked_eq_drain {capacity : Int} {warehouse : List Lot}
    (hcap : InIntRange capacity) (hq : AllNonneg warehouse) (hr : AllInIntRange warehouse) :
    drainChecked capacity warehouse = drain capacity warehouse :=
  transportLoopChecked_eq capacity hcap _ (LoadState.start warehouse)
    (fun x hx => ⟨hq x hx, hr x hx⟩) (le_refl _)

theorem drainChecked_returns {capacity : Int} {warehouse : List Lot}
    (hcap : InIntRange capacity) (hq : AllNonneg warehouse) (hr : AllInIntRange warehouse) :
    ∃ r, drainChecked capacity warehouse = some r := by
  rw [drainChecked_eq_drain hcap hq hr]
  exact drain_returns capacity warehouse

/-- On such inputs the 32-bit drain is the exact drain. -/
theorem drain32_eq_drain {capacity : Int} {warehouse : List Lot}
    (hcap : InIntRange capacity) (hq : AllNonneg warehouse) (hr : AllInIntRange warehouse) :
    drain32 capacity warehouse = drain capacity warehouse := by
  obtain ⟨r, h⟩ := drainChecked_returns hcap hq hr
  rw [(drainChecked_some h).1, (drainChecked_some h).2]

/-- The checked drain fails only on an overflow: when it returns `none`, the loop
reaches an iteration in which a value of line 70, 71 or 77 is outside the range of
`int`. -/
theorem transportLoopChecked_none (capacity : Int) :
    ∀ (fuel : Nat) (s : LoadState),
      (s.warehouse.length < fuel ∨ (0 < fuel ∧ ¬ s.totalLoaded < capacity)) →
      transportLoopChecked capacity fuel s = none →
      ∃ (x : LoadState) (front : Lot) (rest : List Lot),
        LoopReaches capacity s x ∧ x.warehouse = front :: rest ∧
        x.totalLoaded < capacity ∧ ¬ BodyInIntRange capacity front x := by
  intro fuel
  induction fuel with
  | zero => intro s h; rcases h with h | ⟨h, _⟩ <;> omega
  | succ n ih =>
    intro s h hnone
    rcases hw : s.warehouse with _ | ⟨front, rest⟩
    · simp [transportLoopChecked, hw] at hnone
    · by_cases hc : s.totalLoaded < capacity
      · by_cases hb : BodyInIntRange capacity front s
        · simp only [transportLoopChecked, hw, hc, hb, if_true] at hnone
          have hlen : rest.length < n := by
            rcases h with h | ⟨_, h⟩
            · rw [hw] at h; simp at h; omega
            · exact absurd hc h
          have hfuel : (loopBody capacity front rest s).warehouse.length < n ∨
              (0 < n ∧ ¬ (loopBody capacity front rest s).totalLoaded < capacity) := by
            by_cases hp : min (capacity - s.totalLoaded) front.2 = front.2
            · left; simp [loopBody, hp]; exact hlen
            · right
              refine ⟨by omega, ?_⟩
              rw [loopBody_total_of_not_pop capacity front rest s hp]
              omega
          obtain ⟨x, f, r, hreach, hx⟩ := ih _ hfuel hnone
          exact ⟨x, f, r, LoopReaches.step s x front rest hw hc hreach, hx⟩
        · exact ⟨s, front, rest, LoopReaches.refl s, hw, hc, hb⟩
      · simp [transportLoopChecked, hw, hc] at hnone

theorem drainChecked_none {capacity : Int} {warehouse : List Lot}
    (h : drainChecked capacity warehouse = none) :
    ∃ (x : LoadState) (front : Lot) (rest : List Lot),
      LoopReaches capacity (LoadState.start warehouse) x ∧ x.warehouse = front :: rest ∧
      x.totalLoaded < capacity ∧ ¬ BodyInIntRange capacity front x :=
  transportLoopChecked_none capacity _ _ (Or.inl (by simp [LoadState.start])) h

/-- With a representable capacity the loop in 32-bit arithmetic terminates on every
queue: an iteration that does not pop the front lot leaves `totalLoaded = capacity`. -/
theorem transportLoop32_returns (capacity : Int) (hcap : InIntRange capacity) :
    ∀ (fuel : Nat) (s : LoadState),
      (s.warehouse.length < fuel ∨ (0 < fuel ∧ ¬ s.totalLoaded < capacity)) →
      ∃ r, transportLoop32 capacity fuel s = some r := by
  intro fuel
  induction fuel with
  | zero => intro s h; rcases h with h | ⟨h, _⟩ <;> omega
  | succ n ih =>
    intro s h
    rcases hw : s.warehouse with _ | ⟨front, rest⟩
    · exact ⟨s, by simp [transportLoop32, hw]⟩
    · by_cases hc : s.totalLoaded < capacity
      · simp only [transportLoop32, hw, hc, if_true]
        apply ih
        have hlen : rest.length < n := by
          rcases h with h | ⟨_, h⟩
          · rw [hw] at h; simp at h; omega
          · exact absurd hc h
        by_cases hp : min (wrapInt (capacity - s.totalLoaded)) front.2 = front.2
        · left; simp [loopBody32, hp]; exact hlen
        · right
          refine ⟨by omega, ?_⟩
          have hmin : min (wrapInt (capacity - s.totalLoaded)) front.2
              = wrapInt (capacity - s.totalLoaded) := by
            rcases min_choice (wrapInt (capacity - s.totalLoaded)) front.2 with h' | h'
            · exact h'
            · exact absurd h' hp
          have htot : (loopBody32 capacity front rest s).totalLoaded = capacity := by
            simp only [loopBody32, hmin]
            simp only [InIntRange, INT_MIN, INT_MAX] at hcap
            unfold wrapInt
            omega
          rw [htot]
          omega
      · exact ⟨s, by simp [transportLoop32, hw, hc]⟩

theorem drain32_returns (capacity : Int) (warehouse : List Lot) (hcap : InIntRange capacity) :
    ∃ r, drain32 capacity warehouse = some r :=
  transportLoop32_returns capacity hcap _ _ (Or.inl (by simp [LoadState.start]))

/-- A drain of a queue of non-negative representable quantities leaves such a queue. -/
theorem drain_nonneg {capacity : Int} {warehouse : List Lot} {r : LoadState}
    (hq : AllNonneg warehouse) (hr : AllInIntRange warehouse)
    (h : drain capacity warehouse = some r) :
    AllNonneg r.warehouse ∧ AllInIntRange r.warehouse := by
  refine (transportLoop_invariant capacity
    (fun x => AllNonneg x.warehouse ∧ AllInIntRange x.warehouse) ?_ _ _ r ⟨hq, hr⟩ h).1
  intro x front rest hw hc hinv
  rw [hw] at hinv
  have hf0 : 0 ≤ front.2 := hinv.1 front (List.mem_cons_self _ _)
  have hfr : InIntRange front.2 := hinv.2 front (List.mem_cons_self _ _)
  have hrest0 : AllNonneg rest := fun y hy => hinv.1 y (List.mem_cons_of_mem _ hy)
  have hrestr : AllInIntRange rest := fun y hy => hinv.2 y (List.mem_cons_of_mem _ hy)
  simp only [loopBody]
  split_ifs with hp
  · exact ⟨hrest0, hrestr⟩
  · have h1 : min (capacity - x.totalLoaded) front.2 ≤ front.2 := min_le_right _ _
    have h2 : 0 ≤ min (capacity - x.totalLoaded) front.2 := le_min (by omega) hf0
    simp only [InIntRange, INT_MIN, INT_MAX] at hfr
    constructor
    · intro y hy
      rcases List.mem_cons.1 hy with rfl | hy
      · simp only; omega
      · exact hrest0 y hy
    · intro y hy
      rcases List.mem_cons.1 hy with rfl | hy
      · simp only [InIntRange, INT_MIN, INT_MAX]; omega
      · exact hrestr y hy

/-! ## The interleaved system: schedules and invariants -/

theorem run_nil (s : System) : System.run [] s = s := rfl

theorem run_cons (e : Event) (evs : List Event) (s : System) :
    System.run (e :: evs) s = System.run evs (System.step e s) := rfl

/-- A property that holds initially and is preserved by every admitted event holds
after every schedule of admitted events. -/
theorem run_invariant (P : Event → Prop) (Inv : System → Prop)
    (hstep : ∀ e s, P e → Inv s → Inv (System.step e s)) :
    ∀ (evs : List Event) (s : System), (∀ e ∈ evs, P e) → Inv s → Inv (System.run evs s) := by
  intro evs
  induction evs with
  | nil => intro s _ h; exact h
  | cons e evs ih =>
    intro s hP h
    rw [run_cons]
    exact ih _ (fun e' he' => hP e' (List.mem_cons_of_mem _ he'))
      (hstep e s (hP e (List.mem_cons_self _ _)) h)

/-- A step of a truck moves units between the queue, the truck and the statistics
without changing their sum, and pushes nothing. -/
theorem truckStep_conservation {i : Nat} {sh sh' : Shared} {t t' : TruckThread}
    (h : Truck.transportStep i sh t = some (sh', t')) :
    sh'.pushed = sh.pushed ∧
    sumQty sh'.statistics + sumQty sh'.warehouse + t'.pending
      = sumQty sh.statistics + sumQty sh.warehouse + t.pending := by
  unfold Truck.transportStep at h
  split at h
  · split_ifs at h <;> cases h <;> simp_all [TruckThread.pending]
  · split at h
    · cases h; simp_all [TruckThread.pending]
    · cases h
  · split_ifs at h <;> cases h <;> simp_all [TruckThread.pending]
  · cases h; simp_all [TruckThread.pending]
  · cases h
  · split at h
    · cases h
    · rename_i r hr
      cases h
      have := drain_conservation hr
      simp_all [TruckThread.pending]
      omega
  · cases h; simp_all [TruckThread.pending]
  · split at h
    · cases h
      simp_all [TruckThread.pending, sumQty_append]
      omega
    · cases h
  · cases h

/-- A schedule of enabled events ends in the state computed by `System.run`. -/
theorem runStrict_eq_run :
    ∀ (evs : List Event) (s s' : System), System.runStrict evs s = some s' →
      System.run evs s = s' := by
  intro evs
  induction evs with
  | nil => intro s s' h; simpa [System.runStrict, System.run] using h
  | cons e evs ih =>
    intro s s' h
    simp only [System.runStrict] at h
    split_ifs at h
    rw [run_cons]
    exact ih _ _ h

/-- An enabled push adds the quantity of its lot to the history variable `pushed`; no
other event changes it. -/
theorem step_pushed (e : Event) (s : System) (h : System.enabled e s = true) :
    (System.step e s).shared.pushed = s.shared.pushed + producedQty [e] := by
  simp only [System.enabled, decide_eq_true_eq] at h
  cases e with
  | produce f =>
    simp only [System.step] at h ⊢
    split
    · simp [producedQty]
    · rename_i heq
      simp [heq] at h
  | wake i =>
    simp only [System.step, producedQty]
    split <;> simp
  | truck i =>
    simp only [System.step, producedQty]
    split
    · simp
    · split
      · simp
      · rename_i hstep
        simp [(truckStep_conservation hstep).1]
  | main =>
    simp only [System.step, producedQty]
    split <;> simp

theorem runStrict_pushed :
    ∀ (evs : List Event) (s s' : System), System.runStrict evs s = some s' →
      s'.shared.pushed = s.shared.pushed + producedQty evs := by
  intro evs
  induction evs with
  | nil =>
    intro s s' h
    simp only [System.runStrict, Option.some.injEq] at h
    simp [← h, producedQty]
  | cons e evs ih =>
    intro s s' h
    simp only [System.runStrict] at h
    split_ifs at h with hen
    rw [ih _ _ h, step_pushed e s hen]
    cases e <;> simp only [producedQty] <;> omega

theorem staticCastInt_inIntRange (r : ℚ) : InIntRange (staticCastInt r) := by
  unfold staticCastInt
  split_ifs with h
  · exact h
  · simp only [InIntRange, INT_MIN, INT_MAX]; omega

/-- A rate `r` with `0 ≤ r < 2^31` is cast to its integer part, which is not negative. -/
theorem staticCastInt_of_rate (r : ℚ) (h0 : 0 ≤ r) (h1 : r < 2147483648) :
    staticCastInt r = r.num / r.den ∧ 0 ≤ staticCastInt r := by
  have hden : (0 : Int) < r.den := by exact_mod_cast r.den_pos
  have hnum : 0 ≤ r.num := Rat.num_nonneg.2 h0
  have hlt : r.num < 2147483648 * (r.den : Int) := by
    have hd : (0 : ℚ) < r.den := by exact_mod_cast r.den_pos
    rw [← Rat.num_div_den r, div_lt_iff₀ hd] at h1
    exact_mod_cast h1
  have hdiv : r.num / (r.den : Int) < 2147483648 := Int.ediv_lt_of_lt_mul hden hlt
  have hdiv0 : 0 ≤ r.num / (r.den : Int) := Int.ediv_nonneg hnum (by omega)
  have htd : Int.tdiv r.num r.den = r.num / r.den := Int.tdiv_eq_ediv hnum (by omega)
  have hin : InIntRange (Int.tdiv r.num r.den) := by
    rw [htd]
    simp only [InIntRange, INT_MIN, INT_MAX]
    omega
  unfold staticCastInt
  rw [if_pos hin, htd]
  exact ⟨rfl, hdiv0⟩

/-- A rate `r` with `1 ≤ r < 2^31` is cast to a quantity of at least one. -/
theorem staticCastInt_pos (r : ℚ) (h : 1 ≤ r) (h1 : r < 2147483648) : 1 ≤ staticCastInt r := by
  have hden : (0 : Int) < r.den := by exact_mod_cast r.den_pos
  have hle : (r.den : Int) ≤ r.num := by
    have h' := h
    have hd : (0 : ℚ) < r.den := by exact_mod_cast r.den_pos
    rw [← Rat.num_div_den r, le_div_iff₀ hd] at h'
    simp only [one_mul] at h'
    exact_mod_cast h'
  rw [(staticCastInt_of_rate r (by linarith) h1).1]
  exact (Int.le_ediv_iff_mul_le hden).2 (by omega)

theorem staticCastInt_half : staticCastInt (1 / 2) = 0 := by
  unfold staticCastInt
  norm_num
  decide

theorem truckStep_positive {i : Nat} {sh sh' : Shared} {t t' : TruckThread}
    (hpos : AllPositive sh.warehouse) (h : Truck.transportStep i sh t = some (sh', t')) :
    AllPositive sh'.warehouse := by
  unfold Truck.transportStep at h
  split at h
  · split_ifs at h <;> cases h <;> exact hpos
  · split at h
    · cases h; exact hpos
    · cases h
  · split_ifs at h <;> cases h <;> exact hpos
  · cases h; exact hpos
  · cases h
  · split at h
    · cases h
    · rename_i r hr
      cases h
      exact (drain_positive hpos hr).1
  · cases h; exact hpos
  · split at h
    · cases h; exact hpos
    · cases h
  · cases h

theorem step_positive (e : Event) (s : System) (he : e.RateBetween 1)
    (h : AllPositive s.shared.warehouse) : AllPositive (System.step e s).shared.warehouse := by
  cases e with
  | produce f =>
    simp only [System.step]
    split
    · intro x hx
      rcases List.mem_append.1 hx with hx | hx
      · exact h x hx
      · simp only [List.mem_singleton] at hx
        subst hx
        have := staticCastInt_pos f.productionRate he.1 he.2
        simp only [Factory.lot]
        omega
    · exact h
  | wake i =>
    simp only [System.step]
    split <;> exact h
  | truck i =>
    simp only [System.step]
    split
    · exact h
    · split
      · exact h
      · rename_i hstep
        exact truckStep_positive h hstep
  | main =>
    simp only [System.step]
    split <;> exact h

theorem run_positive (capacities : List Int) (evs : List Event)
    (h : ∀ e ∈ evs, e.RateBetween 1) :
    AllPositive (System.run evs (System.init capacities)).shared.warehouse :=
  run_invariant (Event.RateBetween 1) (fun s => AllPositive s.shared.warehouse)
    step_positive evs _ h (fun x hx => by simp [System.init] at hx)

/-! ## Agreement of the exact system and the 32-bit system -/

theorem truckStep_capacity {i : Nat} {sh sh' : Shared} {t t' : TruckThread}
    (h : Truck.transportStep i sh t = some (sh', t')) : t'.capacity = t.capacity := by
  unfold Truck.transportStep at h
  split at h
  · split_ifs at h <;> cases h <;> rfl
  · split at h
    · cases h; rfl
    · cases h
  · split_ifs at h <;> cases h <;> rfl
  · cases h; rfl
  · cases h
  · split at h
    · cases h
    · cases h; rfl
  · cases h; rfl
  · split at h
    · cases h; rfl
    · cases h
  · cases h

theorem truckStep_nonneg {i : Nat} {sh sh' : Shared} {t t' : TruckThread}
    (hq : AllNonneg sh.warehouse) (hr : AllInIntRange sh.warehouse)
    (h : Truck.transportStep i sh t = some (sh', t')) :
    AllNonneg sh'.warehouse ∧ AllInIntRange sh'.warehouse := by
  unfold Truck.transportStep at h
  split at h
  · split_ifs at h <;> cases h <;> exact ⟨hq, hr⟩
  · split at h
    · cases h; exact ⟨hq, hr⟩
    · cases h
  · split_ifs at h <;> cases h <;> exact ⟨hq, hr⟩
  · cases h; exact ⟨hq, hr⟩
  · cases h
  · split at h
    · cases h
    · rename_i r hdrain
      cases h
      exact drain_nonneg hq hr hdrain
  · cases h; exact ⟨hq, hr⟩
  · split at h
    · cases h; exact ⟨hq, hr⟩
    · cases h
  · cases h

/-- With a representable capacity and a queue of non-negative representable
quantities, a step of a truck is the same in both arithmetics. -/
theorem truckStep32_eq (i : Nat) (sh : Shared) (t : TruckThread)
    (hcap : InIntRange t.capacity) (hq : AllNonneg sh.warehouse)
    (hr : AllInIntRange sh.warehouse) :
    Truck.transportStep32 i sh t = Truck.transportStep i sh t := by
  unfold Truck.transportStep32
  split
  · rename_i hp
    rw [drain32_eq_drain hcap hq hr]
    simp only [Truck.transportStep, hp]
  · rfl

theorem step32_eq_step (e : Event) (s : System) (h : s.Representable) :
    System.step32 e s = System.step e s := by
  cases e with
  | produce f => rfl
  | wake i => rfl
  | truck i =>
    simp only [System.step32, System.step]
    split
    · rfl
    · rename_i t ht
      rw [truckStep32_eq i s.shared t (h.2 t (List.getElem?_mem ht)) h.1.1 h.1.2]
  | main => rfl

theorem notified_capacity (t : TruckThread) : t.notified.capacity = t.capacity := by
  unfold TruckThread.notified
  split_ifs <;> rfl

theorem step_representable (e : Event) (s : System) (he : e.RateBetween 0)
    (h : s.Representable) : (System.step e s).Representable := by
  obtain ⟨⟨hq, hr⟩, hc⟩ := h
  cases e with
  | produce f =>
    simp only [System.step]
    split
    · refine ⟨⟨?_, ?_⟩, hc⟩
      · intro x hx
        rcases List.mem_append.1 hx with hx | hx
        · exact hq x hx
        · simp only [List.mem_singleton] at hx
          subst hx
          exact (staticCastInt_of_rate f.productionRate he.1 he.2).2
      · intro x hx
        rcases List.mem_append.1 hx with hx | hx
        · exact hr x hx
        · simp only [List.mem_singleton] at hx
          subst hx
          exact staticCastInt_inIntRange f.productionRate
    · exact ⟨⟨hq, hr⟩, hc⟩
  | wake i =>
    simp only [System.step]
    split
    · exact ⟨⟨hq, hr⟩, hc⟩
    · rename_i t ht
      refine ⟨⟨hq, hr⟩, ?_⟩
      intro x hx
      rcases List.mem_or_eq_of_mem_set hx with hx | rfl
      · exact hc x hx
      · rw [notified_capacity]; exact hc t (List.getElem?_mem ht)
  | truck i =>
    simp only [System.step]
    split
    · exact ⟨⟨hq, hr⟩, hc⟩
    · rename_i t ht
      split
      · exact ⟨⟨hq, hr⟩, hc⟩
      · rename_i sh t' hstep
        refine ⟨truckStep_nonneg hq hr hstep, ?_⟩
        intro x hx
        rcases List.mem_or_eq_of_mem_set hx with hx | rfl
        · exact hc x hx
        · rw [truckStep_capacity hstep]; exact hc t (List.getElem?_mem ht)
  | main =>
    simp only [System.step]
    split
    · exact ⟨⟨hq, hr⟩, hc⟩
    · refine ⟨⟨hq, hr⟩, ?_⟩
      intro x hx
      obtain ⟨y, hy, rfl⟩ := List.mem_map.1 hx
      rw [notified_capacity]; exact hc y hy
    · exact ⟨⟨hq, hr⟩, hc⟩

theorem init_representable (capacities : List Int) (h : ∀ c ∈ capacities, InIntRange c) :
    (System.init capacities).Representable := by
  refine ⟨⟨fun x hx => ?_, fun x hx => ?_⟩, ?_⟩
  · simp [System.init] at hx
  · simp [System.init] at hx
  · intro t ht
    simp only [System.init, List.mem_map] at ht
    obtain ⟨c, hc, rfl⟩ := ht
    exact h c hc

/-- On schedules whose pushes come from factories with rates `0 ≤ r < 2^31`, started
with representable truck capacities, the 32-bit system and the exact system go through
the same states, and the queue always holds non-negative representable quantities. -/
theorem run32_eq_run :
    ∀ (evs : List Event) (s : System), s.Representable → (∀ e ∈ evs, e.RateBetween 0) →
      System.run32 evs s = System.run evs s ∧ (System.run evs s).Representable := by
  intro evs
  induction evs with
  | nil => intro s h _; exact ⟨rfl, h⟩
  | cons e evs ih =>
    intro s h he
    have h1 := step_representable e s (he e (List.mem_cons_self _ _)) h
    have h2 := ih _ h1 (fun e' he' => he e' (List.mem_cons_of_mem _ he'))
    refine ⟨?_, h2.2⟩
    show System.run32 evs (System.step32 e s) = System.run evs (System.step e s)
    rw [step32_eq_step e s h]
    exact h2.1

theorem rateBetween_mono (e : Event) (h : e.RateBetween 1) : e.RateBetween 0 := by
  cases e with
  | produce f => exact ⟨by have := h.1; linarith, h.2⟩
  | wake i => trivial
  | truck i => trivial
  | main => trivial

/-- The schedules of this development with the factories and trucks of `main` go
through the same states in both arithmetics. -/
theorem run32_eq_run_main :
    System.run32 twoTripsRun (System.init mainTrucks)
      = System.run twoTripsRun (System.init mainTrucks) ∧
    System.run32 oneTripRun (System.init mainTrucks)
      = System.run oneTripRun (System.init mainTrucks) ∧
    System.run32 shutdownSchedule (System.init mainTrucks)
      = System.run shutdownSchedule (System.init mainTrucks) ∧
    System.run32 lostWakeupSchedule (System.init mainTrucks)
      = System.run lostWakeupSchedule (System.init mainTrucks) ∧
    System.run32 stopAfterLoadSchedule (System.init mainTrucks)
      = System.run stopAfterLoadSchedule (System.init mainTrucks) := by
  decide

/-! ## Steps of a truck thread -/

/-- Where a step of a truck thread can lead, by control point. -/
theorem truckStep_phase {i : Nat} {sh sh' : Shared} {t t' : TruckThread}
    (h : Truck.transportStep i sh t = some (sh', t')) :
    (t.phase = Phase.recording → t'.phase = Phase.loopTest) ∧
    (t.phase = Phase.loopTest →
      (sh.shouldStop = false → t'.phase = Phase.acquiring) ∧
      (sh.shouldStop = true → t'.phase = Phase.stopped)) ∧
    (t'.phase = Phase.stopped →
      sh.shouldStop = true ∧
      (t.phase = Phase.loopTest ∨ (t.phase = Phase.waiting ∧ sh.warehouse = []))) ∧
    (t.phase = Phase.waiting → sh.shouldStop = true → sh.warehouse ≠ [] →
      t'.phase = Phase.loading) := by
  unfold Truck.transportStep at h
  split at h
  · split_ifs at h <;> cases h <;> simp_all
  · split at h
    · cases h; simp_all
    · cases h
  · split_ifs at h <;> cases h <;> simp_all
  · cases h; simp_all
  · cases h
  · split at h
    · cases h
    · cases h; simp_all
  · cases h; simp_all
  · split at h
    · cases h; simp_all
    · cases h
  · cases h

/-- A truck that is asleep or has returned takes no step. -/
theorem truckStep_none_of_idle (i : Nat) (sh : Shared) (t : TruckThread)
    (h : t.phase = Phase.blocked ∨ t.phase = Phase.stopped) : Truck.transportStep i sh t = none := by
  unfold Truck.transportStep
  rcases h with h | h <;> rw [h]

/-- Once `main` has broadcast and every truck is asleep or has returned, no step of a
truck or of `main` changes the state. -/
theorem step_stuck (s : System) (hm : s.mainPc = MainPc.notified)
    (ht : ∀ t ∈ s.trucks, t.phase = Phase.blocked ∨ t.phase = Phase.stopped)
    (e : Event) (he : e.isTruckOrMain = true) : System.step e s = s := by
  cases e with
  | produce f => simp [Event.isTruckOrMain] at he
  | wake i => simp [Event.isTruckOrMain] at he
  | truck i =>
    simp only [System.step]
    split
    · rfl
    · rename_i t hget
      have hmem : t ∈ s.trucks := List.getElem?_mem hget
      rw [truckStep_none_of_idle i s.shared t (ht t hmem)]
  | main =>
    simp only [System.step, hm]

theorem run_stuck (s : System) (hm : s.mainPc = MainPc.notified)
    (ht : ∀ t ∈ s.trucks, t.phase = Phase.blocked ∨ t.phase = Phase.stopped)
    (evs : List Event) (he : ∀ e ∈ evs, e.isTruckOrMain = true) : System.run evs s = s := by
  induction evs with
  | nil => rfl
  | cons e evs ih =>
    rw [run_cons, step_stuck s hm ht e (he e (List.mem_cons_self _ _))]
    exact ih (fun e' he' => he e' (List.mem_cons_of_mem _ he'))

/-! ## Properties stated by the specification -/

/-- C4 (a drain takes as much as it can).  For every queue of positive lots and every
capacity that is not negative, the loading loop terminates, and on exit the total
loaded equals the capacity or the queue is empty; the total loaded equals
`min(capacity, sum of all quantities before the drain)`.  In the scenario of the
spec, a queue with one lot of 30, or with three lots of 10, drained with capacity 25
loads exactly 25 and leaves 5 at the head, and a second drain with capacity 25 loads the
remaining 5 and empties the queue. -/
theorem C4_drain_takes_maximum (capacity : Int) (warehouse : List Lot)
    (hpos : AllPositive warehouse) (hcap : 0 ≤ capacity) :
    (∃ r, drain capacity warehouse = some r ∧
      (r.totalLoaded = capacity ∨ r.warehouse = []) ∧
      r.totalLoaded = min capacity (sumQty warehouse)) ∧
    drain 25 [("A", 30)] = some ⟨[("A", 5)], 25, [("A", 25)]⟩ ∧
    drain 25 [("A", 10), ("A", 10), ("A", 10)]
      = some ⟨[("A", 5)], 25, [("A", 10), ("A", 10), ("A", 5)]⟩ ∧
    drain 25 [("A", 5)] = some ⟨[], 5, [("A", 5)]⟩ := by
  refine ⟨?_, by decide, by decide, by decide⟩
  obtain ⟨r, hr⟩ := drain_returns capacity warehouse
  refine ⟨r, hr, ?_, drain_total_eq_min hpos hcap hr⟩
  have hle := drain_total_le_max hr
  rw [max_eq_left hcap] at hle
  rcases drain_exit hr with he | he
  · exact Or.inr he
  · exact Or.inl (by omega)

/-- Witness of C4 at the queue with three lots of 10 and capacity 25. -/
theorem C4_drain_takes_maximum_witness :
    AllPositive [("A", 10), ("A", 10), ("A", 10)] ∧ (0 : Int) ≤ 25 ∧
    ∃ r, drain 25 [("A", 10), ("A", 10), ("A", 10)] = some r ∧
      (r.totalLoaded = 25 ∨ r.warehouse = []) ∧
      r.totalLoaded = min 25 (sumQty [("A", 10), ("A", 10), ("A", 10)]) :=
  ⟨by decide, by decide,
    (C4_drain_takes_maximum 25 [("A", 10), ("A", 10), ("A", 10)] (by decide) (by decide)).1⟩

/-- C5 as stated fails for a factory whose production rate is below one unit per
cycle: `static_cast<int>(0.5)` is `0`, and the lot pushed stays in the queue with
quantity 0.  It also fails for a rate whose truncation is not representable as `int`:
for the rate 3000000000 the lot pushed has the quantity -2147483648. -/
theorem C5_counterexample_zero_lot :
    (System.run32 [Event.produce slowFactory] (System.init mainTrucks)).shared.warehouse
      = [("S", 0)] ∧
    ¬ AllPositive
      (System.run32 [Event.produce slowFactory] (System.init mainTrucks)).shared.warehouse ∧
    (System.run32 [Event.produce hugeFactory] (System.init mainTrucks)).shared.warehouse
      = [("H", -2147483648)] ∧
    ¬ AllPositive
      (System.run32 [Event.produce hugeFactory] (System.init mainTrucks)).shared.warehouse := by
  have h : (System.run32 [Event.produce slowFactory] (System.init mainTrucks)).shared.warehouse
      = [("S", 0)] := by
    simp only [System.run32, List.foldl, System.step32, System.step, System.init, slowFactory,
      Factory.produce, Factory.lot, staticCastInt_half, List.nil_append]
  rw [h]
  exact ⟨rfl, by decide, by decide, by decide⟩

/-- C5 (lot positivity), amended to factories whose production rate `r` satisfies
`1 ≤ r < 2^31`: in every state reached from the initial state (representable truck
capacities) by a schedule whose pushes all come from such factories, with any wake-ups
and steps of trucks and of `main`, every lot in the queue has a quantity greater than
zero; and a drain of a queue of positive representable lots, with any representable
capacity, returns without overflow and leaves only positive lots, so a lot reduced to
zero is removed by that drain. -/
theorem C5_lot_positivity (capacities : List Int) (evs : List Event)
    (hcaps : ∀ c ∈ capacities, InIntRange c) (hrate : ∀ e ∈ evs, e.RateBetween 1) :
    AllPositive (System.run32 evs (System.init capacities)).shared.warehouse ∧
    ∀ (capacity : Int) (warehouse : List Lot),
      InIntRange capacity → AllInIntRange warehouse → AllPositive warehouse →
      ∃ r, drainChecked capacity warehouse = some r ∧ drain32 capacity warehouse = some r ∧
        AllPositive r.warehouse := by
  constructor
  · rw [(run32_eq_run evs _ (init_representable capacities hcaps)
      (fun e he => rateBetween_mono e (hrate e he))).1]
    exact run_positive capacities evs hrate
  · intro capacity warehouse hcap hrep hpos
    obtain ⟨r, hr⟩ := drainChecked_returns hcap (fun x hx => le_of_lt (hpos x hx)) hrep
    exact ⟨r, hr, (drainChecked_some hr).1, (drain_positive hpos (drainChecked_some hr).2).1⟩

/-- Witness of C5: factories A and B of `main` push, the first truck drains, `main`
sets the flag; the lot of 55 units is left in the queue. -/
theorem C5_lot_positivity_witness :
    (∀ c ∈ mainTrucks, InIntRange c) ∧
    (∀ e ∈ stopAfterLoadSchedule, e.RateBetween 1) ∧
    (System.run32 stopAfterLoadSchedule (System.init mainTrucks)).shared.warehouse
      = [("B", 55)] ∧
    AllPositive (System.run32 stopAfterLoadSchedule (System.init mainTrucks)).shared.warehouse :=
  have h : ∀ e ∈ stopAfterLoadSchedule, e.RateBetween 1 := by
    intro e he
    simp only [stopAfterLoadSchedule, List.mem_cons, List.mem_singleton, List.not_mem_nil,
      or_false] at he
    have hB : (1 : ℚ) ≤ rateB := by rw [Rat.le_def]; decide
    have hB' : rateB < 2147483648 := by rw [Rat.lt_def]; decide
    rcases he with rfl | rfl | rfl | rfl | rfl | rfl | rfl | rfl | rfl | rfl <;>
      (simp [Event.RateBetween, factoryA, factoryB, hB, hB']; try norm_num)
  ⟨by decide, h, by decide, (C5_lot_positivity mainTrucks stopAfterLoadSchedule (by decide) h).1⟩

/-- C6 (record amounts are positive).  For every capacity and every queue of positive
lots the drain returns and every record it produces has an amount greater than zero.
These are the records that get logged: the truck thread that executes the drain keeps
exactly them in `loadedProducts`, and its recording step appends exactly them to the
statistics. -/
theorem C6_records_positive (capacity : Int) (warehouse : List Lot)
    (hpos : AllPositive warehouse) :
    ∃ r, drain capacity warehouse = some r ∧
      (∀ record ∈ r.loadedProducts, 0 < record.2) ∧
      ∀ (i : Nat) (sh : Shared) (t : TruckThread),
        sh.warehouse = warehouse → t.capacity = capacity → t.phase = Phase.loading →
        ∃ sh₁ t₁, Truck.transportStep i sh t = some (sh₁, t₁) ∧
          t₁.phase = Phase.transit ∧ t₁.loadedProducts = r.loadedProducts ∧
          (∀ sh₂ : Shared,
            Truck.transportStep i sh₂ t₁ = some (sh₂, { t₁ with phase := Phase.recording })) ∧
          (∀ sh₂ : Shared, sh₂.mutexOwner = none →
            ∃ sh₃ t₃,
              Truck.transportStep i sh₂ { t₁ with phase := Phase.recording } = some (sh₃, t₃) ∧
              sh₃.statistics = sh₂.statistics ++ r.loadedProducts) := by
  obtain ⟨r, hr⟩ := drain_returns capacity warehouse
  refine ⟨r, hr, (drain_positive hpos hr).2, ?_⟩
  intro i sh t hw hc hp
  refine ⟨{ sh with warehouse := r.warehouse, mutexOwner := none },
    { t with phase := Phase.transit, totalLoaded := r.totalLoaded,
             loadedProducts := r.loadedProducts }, ?_, rfl, rfl, ?_, ?_⟩
  · simp only [Truck.transportStep, hp, hw, hc, hr]
  · intro sh₂
    simp only [Truck.transportStep]
  · intro sh₂ hfree
    exact ⟨{ sh₂ with statistics := sh₂.statistics ++ r.loadedProducts,
                      trips := sh₂.trips + 1 },
      { t with phase := Phase.loopTest, totalLoaded := r.totalLoaded,
               loadedProducts := r.loadedProducts },
      by simp only [Truck.transportStep, hfree], rfl⟩

/-- Witness of C6 at capacity 25 and three lots of 10 units. -/
theorem C6_records_positive_witness :
    AllPositive [("A", 10), ("A", 10), ("A", 10)] ∧
    ∃ r, drain 25 [("A", 10), ("A", 10), ("A", 10)] = some r ∧
      ∀ record ∈ r.loadedProducts, 0 < record.2 :=
  ⟨by decide,
    let ⟨r, hr, hp, _⟩ := C6_records_positive 25 [("A", 10), ("A", 10), ("A", 10)] (by decide)
    ⟨r, hr, hp⟩⟩

/-- C7 fails on the code.  In the run `twoTripsRun`, every event of which is enabled
when taken, factory A pushes 50 units twice and the first truck of `main` makes two
complete trips; at teardown all threads have returned, the statistics hold two records
of 50 units and two drains were completed, so the average per trip is 50.  Line 182
computes the number of trips as `transportStatistics.size() / trucks.size() = 2 / 2 = 1`
and line 183 prints 100. -/
theorem C7_average_divides_by_records_over_trucks :
    System.runStrict twoTripsRun (System.init mainTrucks)
      = some (System.run twoTripsRun (System.init mainTrucks)) ∧
    (System.run twoTripsRun (System.init mainTrucks)).joined = true ∧
    (System.run twoTripsRun (System.init mainTrucks)).shared.statistics
      = [("A", 50), ("A", 50)] ∧
    (System.run twoTripsRun (System.init mainTrucks)).shared.trips = 2 ∧
    totalTrips mainTrucks.length [("A", 50), ("A", 50)] = 1 ∧
    (System.run twoTripsRun (System.init mainTrucks)).report = some 100 ∧
    specAveragePerTrip (System.run twoTripsRun (System.init mainTrucks)).shared.trips
      (System.run twoTripsRun (System.init mainTrucks)).shared.statistics = some 50 := by
  decide

/-- C8 fails on the code.  In the run `shutdownSchedule` no truck completes a drain:
at teardown all threads have returned, the statistics are empty, line 182 yields
`totalTrips = 0` and line 183 divides by it without a test.  The same happens whenever
the statistics hold fewer records than there are trucks, as in the run `oneTripRun`
with one record after one completed trip. -/
theorem C8_zero_trips_division_by_zero :
    System.runStrict shutdownSchedule (System.init mainTrucks)
      = some (System.run shutdownSchedule (System.init mainTrucks)) ∧
    (System.run shutdownSchedule (System.init mainTrucks)).joined = true ∧
    (System.run shutdownSchedule (System.init mainTrucks)).shared.statistics = [] ∧
    (System.run shutdownSchedule (System.init mainTrucks)).shared.trips = 0 ∧
    totalTrips mainTrucks.length [] = 0 ∧
    (System.run shutdownSchedule (System.init mainTrucks)).report = none ∧
    (System.run oneTripRun (System.init mainTrucks)).joined = true ∧
    (System.run oneTripRun (System.init mainTrucks)).shared.statistics = [("A", 50)] ∧
    (System.run oneTripRun (System.init mainTrucks)).shared.trips = 1 ∧
    totalTrips mainTrucks.length [("A", 50)] = 0 ∧
    (System.run oneTripRun (System.init mainTrucks)).report = none := by
  decide

/-- C9 fails on the code: a wake-up can be lost, because line 160 writes the flag
without owning the mutex.  In `lostWakeupSchedule`, every event of which is enabled
when taken, the first truck finds the wait predicate false while owning the mutex,
`main` then sets the flag and broadcasts before the truck is asleep, and the truck goes
to sleep afterwards.  In the state reached the flag is set, the broadcast is done, the
queue is empty, the first truck is asleep, the joins of `main` have not returned, and
no step of a truck or of `main` changes anything ever again: only a later push or a
spurious wake-up could release the truck. -/
theorem C9_lost_wakeup :
    System.runStrict lostWakeupSchedule (System.init mainTrucks)
      = some (System.run lostWakeupSchedule (System.init mainTrucks)) ∧
    (System.run lostWakeupSchedule (System.init mainTrucks)).shared.shouldStop = true ∧
    (System.run lostWakeupSchedule (System.init mainTrucks)).mainPc = MainPc.notified ∧
    (System.run lostWakeupSchedule (System.init mainTrucks)).shared.warehouse = [] ∧
    (System.run lostWakeupSchedule (System.init mainTrucks)).trucks.map TruckThread.phase
      = [Phase.blocked, Phase.stopped] ∧
    (System.run lostWakeupSchedule (System.init mainTrucks)).joined = false ∧
    ∀ evs : List Event, (∀ e ∈ evs, e.isTruckOrMain = true) →
      System.run evs (System.run lostWakeupSchedule (System.init mainTrucks))
        = System.run lostWakeupSchedule (System.init mainTrucks) := by
  refine ⟨by decide, by decide, by decide, by decide, by decide, by decide, ?_⟩
  intro evs he
  exact run_stuck _ (by decide) (by decide) evs he

/-- C10 as stated fails: a truck also stops at the loop test of line 59, whatever the
queue holds.  In `stopAfterLoadSchedule`, every event of which is enabled when taken,
the flag is set while the first truck is in transit; after recording, the truck
evaluates `while (!shouldStop)` with the flag set and a lot of 55 units in the queue,
and returns. -/
theorem C10_counterexample_stop_at_loop_test :
    System.runStrict stopAfterLoadSchedule (System.init mainTrucks)
      = some (System.run stopAfterLoadSchedule (System.init mainTrucks)) ∧
    (System.run stopAfterLoadSchedule.dropLast (System.init mainTrucks)).shared.shouldStop
      = true ∧
    (System.run stopAfterLoadSchedule.dropLast (System.init mainTrucks)).shared.warehouse
      = [("B", 55)] ∧
    (System.run stopAfterLoadSchedule.dropLast (System.init mainTrucks)).trucks.map
      TruckThread.phase = [Phase.loopTest, Phase.loopTest] ∧
    (System.run stopAfterLoadSchedule (System.init mainTrucks)).trucks.map
      TruckThread.phase = [Phase.stopped, Phase.loopTest] ∧
    (System.run stopAfterLoadSchedule (System.init mainTrucks)).shared.warehouse
      = [("B", 55)] ∧
    Truck.transportStep 0 ⟨[("B", 55)], [("A", 50)], true, none, 105, 1⟩
        ⟨50, Phase.loopTest, 50, [("A", 50)]⟩
      = some (⟨[("B", 55)], [("A", 50)], true, none, 105, 1⟩,
              ⟨50, Phase.stopped, 50, [("A", 50)]⟩) := by
  decide

/-- C10 (consumer state machine), amended.  For every step of a truck thread: after
RECORDING the thread is at the loop test of line 59, from which it goes on to WAITING
(lock acquisition) when the stop flag is clear and to STOPPED when it is set; a step
leads to STOPPED only when the stop flag is set, either from that loop test or from
the wait at a moment when the queue is empty; and a step from the wait taken with the
stop flag set and a non-empty queue leads to LOADING. -/
theorem C10_consumer_state_machine (i : Nat) (sh sh' : Shared) (t t' : TruckThread)
    (h : Truck.transportStep i sh t = some (sh', t')) :
    (t.phase = Phase.recording → t'.phase = Phase.loopTest) ∧
    (t.phase = Phase.loopTest →
      (sh.shouldStop = false → t'.phase = Phase.acquiring) ∧
      (sh.shouldStop = true → t'.phase = Phase.stopped)) ∧
    (t'.phase = Phase.stopped →
      sh.shouldStop = true ∧
      (t.phase = Phase.loopTest ∨ (t.phase = Phase.waiting ∧ sh.warehouse = []))) ∧
    (t.phase = Phase.waiting → sh.shouldStop = true → sh.warehouse ≠ [] →
      t'.phase = Phase.loading) :=
  truckStep_phase h

/-- Witness of C10: a truck in the wait, with the flag set and a lot in the queue,
moves to LOADING. -/
theorem C10_consumer_state_machine_witness :
    Truck.transportStep 0 ⟨[("B", 55)], [], true, some 0, 55, 0⟩ ⟨50, Phase.waiting, 0, []⟩
      = some (⟨[("B", 55)], [], true, some 0, 55, 0⟩, ⟨50, Phase.loading, 0, []⟩) ∧
    ((⟨50, Phase.waiting, 0, []⟩ : TruckThread).phase = Phase.waiting →
      (⟨[("B", 55)], [], true, some 0, 55, 0⟩ : Shared).shouldStop = true →
      (⟨[("B", 55)], [], true, some 0, 55, 0⟩ : Shared).warehouse ≠ [] →
      (⟨50, Phase.loading, 0, []⟩ : TruckThread).phase = Phase.loading) :=
  ⟨by decide,
    (C10_consumer_state_machine 0 ⟨[("B", 55)], [], true, some 0, 55, 0⟩
      ⟨[("B", 55)], [], true, some 0, 55, 0⟩ ⟨50, Phase.waiting, 0, []⟩
      ⟨50, Phase.loading, 0, []⟩ (by decide)).2.2.2⟩

end RockTrucks
